import Mathlib

/-!
Shallow embedding of the solman repository (solman/soln.py and solman/latex.py):
a utility that groups per-problem markdown solution files by section directory
and assembles them into a LaTeX document.

Python dynamic values that flow through the metadata loader are embedded as the
inductive type Val; Python exceptions raised by the loader and renderer are
embedded as the error type of Except.  Filenames and directory names are Lean
Strings; character-level reasoning happens on their underlying char lists.
-/

namespace Solman

/-- Calendar date, standing for Python datetime.date (and datetime.datetime,
which is a subclass of date; the claims never distinguish the two). -/
structure PyDate where
  month : Nat
  day : Nat
  year : Nat
deriving DecidableEq

/-- Dynamic Python value as it appears in the metadata-loading pipeline:
a string, a date, a tuple of strings (the coerced Tags), or None. -/
inductive Val where
  | vstr : String → Val
  | vdate : PyDate → Val
  | vtuple : List String → Val
  | vnone : Val
deriving DecidableEq

/-- Exception kinds raised by the embedded code paths:
validation is SolManError (a ValueError subclass) carrying the missing key,
parseErr is the ValueError raised by datetime.strptime on malformed text,
attrErr is AttributeError (e.g. None.split), typeErr is TypeError
(unexpected keyword argument, unorderable sort keys, bad operand types). -/
inductive LoadErr where
  | validation : String → LoadErr
  | parseErr : LoadErr
  | attrErr : LoadErr
  | typeErr : LoadErr
deriving DecidableEq

/-- Split a char list on a separator char; mirrors Python str.split(sep)
for a one-char sep: "a,b".split(",") = ["a","b"], "".split(",") = [""]. -/
def splitOnChar (c : Char) : List Char → List (List Char)
  | [] => [[]]
  | a :: rest =>
    let r := splitOnChar c rest
    if a = c then [] :: r
    else
      match r with
      | [] => [[a]]
      | h :: t => (a :: h) :: t

/-- Value of a digit string, mirroring Python int() on an all-digit string. -/
def digitsVal (l : List Char) : Nat :=
  l.foldl (fun n c => n * 10 + (c.toNat - 48)) 0

/-- Python str.isdigit for ASCII digit strings: nonempty and all digits. -/
def isDigitsL (l : List Char) : Bool :=
  !l.isEmpty && l.all Char.isDigit

def isDigitsStr (s : String) : Bool := isDigitsL s.data

def digitsToNat (s : String) : Nat := digitsVal s.data

/-- Days in a month, as validated by datetime.strptime (with leap years). -/
def daysInMonth (m y : Nat) : Nat :=
  if m = 2 then
    if y % 4 = 0 && (y % 100 != 0 || y % 400 = 0) then 29 else 28
  else if m = 4 || m = 6 || m = 9 || m = 11 then 30
  else 31

/-- datetime.datetime.strptime(s, "%m-%d-%Y") from MetaFields.SolutionDate:
one or two digits for month and day, up to four for the year, separated by
literal dashes; month and day ranges validated.  Failure is the ValueError
that strptime raises on malformed text, embedded as parseErr. -/
def parseMMDDYYYY (s : String) : Except LoadErr PyDate :=
  match splitOnChar '-' s.data with
  | [ms, ds, ys] =>
    if isDigitsL ms && decide (ms.length ≤ 2) && isDigitsL ds && decide (ds.length ≤ 2)
        && isDigitsL ys && decide (ys.length ≤ 4) then
      let m := digitsVal ms
      let d := digitsVal ds
      let y := digitsVal ys
      if decide (1 ≤ m) && decide (m ≤ 12) && decide (1 ≤ d) && decide (d ≤ daysInMonth m y) then
        Except.ok ⟨m, d, y⟩
      else Except.error LoadErr.parseErr
    else Except.error LoadErr.parseErr
  | _ => Except.error LoadErr.parseErr

/-- Coercion of MetaFields.SolutionDate:
lambda d: d if isinstance(d, datetime.date) else datetime.datetime.strptime(d, "%m-%d-%Y").
A date value is kept; a string is parsed; anything else makes strptime raise TypeError. -/
def dateCoercion : Val → Except LoadErr Val
  | Val.vdate d => Except.ok (Val.vdate d)
  | Val.vstr s => (parseMMDDYYYY s).map Val.vdate
  | _ => Except.error LoadErr.typeErr

/-- Coercion of MetaFields.Tags: lambda comma_separated: tuple(comma_separated.split(",")).
On None (the default used when the Tags key is absent) Python raises
AttributeError, because None has no split method. -/
def tagsCoercion : Val → Except LoadErr Val
  | Val.vstr s => Except.ok (Val.vtuple ((splitOnChar ',' s.data).map (fun l => String.mk l)))
  | _ => Except.error LoadErr.attrErr

/-- One row of the declarative field table: MetaField(key, attr, coercion, required, default).
The attr component (the keyword-argument name) is implicit in how fromMeta
passes each value to the constructor. -/
structure MetaField where
  key : String
  coercion : Option (Val → Except LoadErr Val)
  required : Bool
  default : Val

/-- MetaFields.Author. -/
def MetaFields.Author : MetaField := ⟨"Author", none, true, Val.vnone⟩

/-- MetaFields.Book. -/
def MetaFields.Book : MetaField := ⟨"Book", none, true, Val.vnone⟩

/-- MetaFields.Category. -/
def MetaFields.Category : MetaField := ⟨"Category", none, true, Val.vnone⟩

/-- MetaFields.ISBN. -/
def MetaFields.ISBN : MetaField := ⟨"ISBN", none, false, Val.vnone⟩

/-- MetaFields.Name. -/
def MetaFields.Name : MetaField := ⟨"Name", none, true, Val.vnone⟩

/-- MetaFields.ReferencesFile. -/
def MetaFields.ReferencesFile : MetaField := ⟨"ReferencesFile", none, false, Val.vnone⟩

/-- The SectionPrefix row of MetaFields, with declared default "Chapter". -/
def MetaFields.SectionPref : MetaField := ⟨"SectionPrefix", none, false, Val.vstr "Chapter"⟩

/-- MetaFields.SolutionAuthor. -/
def MetaFields.SolutionAuthor : MetaField := ⟨"SolutionAuthor", none, true, Val.vnone⟩

/-- MetaFields.SolutionDate.  Its default, datetime.date.today(), is evaluated
once, when the MetaFields class body runs at module import; importDay is that
date.  The default is therefore a fixed date, shared by all later loads. -/
def MetaFields.SolutionDate (importDay : PyDate) : MetaField :=
  ⟨"SolutionDate", some dateCoercion, false, Val.vdate importDay⟩

/-- MetaFields.Subcategory. -/
def MetaFields.Subcategory : MetaField := ⟨"Subcategory", none, false, Val.vnone⟩

/-- MetaFields.Tags. -/
def MetaFields.Tags : MetaField := ⟨"Tags", some tagsCoercion, false, Val.vnone⟩

/-- A parsed metadata record (the yaml.load result): a key/value mapping,
looked up with dict.get. -/
abbrev MetaRec := List (String × Val)

/-- dict.get(key): the first binding of the key, if any. -/
def lookupRec (rec : MetaRec) (k : String) : Option Val :=
  (rec.find? (fun p => p.1 = k)).map (fun p => p.2)

/-- get_meta_field from SolutionGroup.from_meta:
value = meta.get(field.key, field.default); raise SolManError if the value is
None and the field is required; then apply the field coercion if one is declared. -/
def getMetaField (rec : MetaRec) (f : MetaField) : Except LoadErr Val :=
  let value := (lookupRec rec f.key).getD f.default
  if value = Val.vnone && f.required then Except.error (LoadErr.validation f.key)
  else
    match f.coercion with
    | none => Except.ok value
    | some c => c value

/-- ProblemType: closed str-enum with short filename tags as values
("ex", "prob") and member names Exercise / Problem. -/
inductive ProblemType where
  | Exercise : ProblemType
  | Problem : ProblemType
deriving DecidableEq

/-- The enum member value, i.e. what "{}".format(problem_type) and
problem_type + "-" use on this str-mixin enum. -/
def ProblemType.val : ProblemType → String
  | ProblemType.Exercise => "ex"
  | ProblemType.Problem => "prob"

/-- The enum member name, used for the subsection label. -/
def ProblemType.label : ProblemType → String
  | ProblemType.Exercise => "Exercise"
  | ProblemType.Problem => "Problem"

/-- A file somewhere under the collection root: dirs is the chain of
directory names below the root (empty for a file directly in the root),
name is the filename. -/
structure SFile where
  dirs : List String
  name : String
deriving DecidableEq

/-- The collection root directory tree as seen by Path.glob: the root
directory's own name, and every file anywhere below it, in traversal order. -/
structure FileSys where
  rootName : String
  files : List SFile
deriving DecidableEq

/-- file.parent.name: the immediate parent directory's name (the root's own
name for a file lying directly in the root). -/
def parentName (fs : FileSys) (f : SFile) : String :=
  f.dirs.getLast?.getD fs.rootName

/-- Does pat occur as a contiguous segment of l?  Executable form of
List.IsInfix. -/
def containsSeg (pat : List Char) : List Char → Bool
  | [] => pat.isEmpty
  | a :: rest => pat.isPrefixOf (a :: rest) || containsSeg pat rest

/-- l with its last three chars removed (the ".md" stem region). -/
def stem3 (l : List Char) : List Char := l.take (l.length - 3)

/-- Does a filename match the glob pattern "*<tag>*.md" (fnmatch semantics):
name ends in ".md" and the tag occurs somewhere before that extension.
Lemma matchesPat_iff below shows this equals the existential decomposition
name = a ++ tag ++ b ++ ".md". -/
def matchesPat (tag : String) (name : String) : Bool :=
  (List.isSuffixOf ['.', 'm', 'd'] name.data) && containsSeg tag.data (stem3 name.data)

/-- The files root.glob("**/*{tag}*.md") yields, in traversal order. -/
def matchedFiles (fs : FileSys) (pt : ProblemType) : List SFile :=
  fs.files.filter (fun f => matchesPat pt.val f.name)

/-- A grouping key: int(section) when the parent directory name is all
digits, the literal name string otherwise. -/
inductive SKey where
  | int : Nat → SKey
  | str : String → SKey
deriving DecidableEq

/-- section = file.parent.name; if section.isdigit(): section = int(section). -/
def sectionKey (s : String) : SKey :=
  if isDigitsStr s then SKey.int (digitsToNat s) else SKey.str s

/-- files_by_section: insertion-ordered mapping from section key to the files
encountered under it, as built by the defaultdict(list) loop. -/
abbrev Grouping := List (SKey × List SFile)

/-- files_by_section[section].append(file): extend the existing entry for the
key, or append a new entry at the end (defaultdict + dict insertion order). -/
def addToGroup (g : Grouping) (k : SKey) (f : SFile) : Grouping :=
  match g with
  | [] => [(k, [f])]
  | (k2, fl) :: rest =>
    if k2 = k then (k2, fl ++ [f]) :: rest
    else (k2, fl) :: addToGroup rest k f

/-- The body of SolutionGroup._lazy_get_files once the cache is cold:
glob the tree, then group each matched file under its parent-directory key. -/
def computeGrouping (fs : FileSys) (pt : ProblemType) : Grouping :=
  (matchedFiles fs pt).foldl (fun g f => addToGroup g (sectionKey (parentName fs f)) f) []

/-- A SolutionGroup instance: the metadata attributes (dynamic Python values),
the root path, and the two lazy grouping slots _problems and _exercises. -/
structure SolutionGroup where
  name : Val
  root : String
  author : Val
  book : Val
  category : Val
  solution_author : Val
  isbn : Val
  references_file : Val
  sectionPref : Val
  subcategory : Val
  tags : Val
  solution_date : Val
  problemsCache : Option Grouping
  exercisesCache : Option Grouping
deriving DecidableEq

/-- SolutionGroup.__init__: stores every attribute, replaces a None
solution_date by datetime.date.today() (today = the date at construction
time), and clears both lazy slots.  The sectionPref field carries the
attribute that Python spells with an underscore between "section" and the
word for a leading label. -/
def SolutionGroup.init (name : Val) (root : String) (author book category solution_author
    isbn references_file sectionPref subcategory tags solution_date : Val)
    (today : PyDate) : SolutionGroup :=
  { name := name
    root := root
    author := author
    book := book
    category := category
    solution_author := solution_author
    isbn := isbn
    references_file := references_file
    sectionPref := sectionPref
    subcategory := subcategory
    tags := tags
    solution_date := if solution_date = Val.vnone then Val.vdate today else solution_date
    problemsCache := none
    exercisesCache := none }

/-- SolutionGroup._lazy_get_files via the problems/exercises properties:
return the cached grouping if the slot is set, otherwise compute the grouping
from the directory tree as it stands now and store it.  Returns the grouping
together with the (possibly updated) instance. -/
def SolutionGroup.lazyGetFiles (sg : SolutionGroup) (fs : FileSys) (pt : ProblemType) :
    Grouping × SolutionGroup :=
  match pt with
  | ProblemType.Problem =>
    match sg.problemsCache with
    | some g => (g, sg)
    | none =>
      let g := computeGrouping fs pt
      (g, { sg with problemsCache := some g })
  | ProblemType.Exercise =>
    match sg.exercisesCache with
    | some g => (g, sg)
    | none =>
      let g := computeGrouping fs pt
      (g, { sg with exercisesCache := some g })

/-- from_meta: evaluate get_meta_field for every row of the field table.
The rows are enumerated with dir(MetaFields), which sorts the attribute names
alphabetically, so the evaluation (and hence the first raised error) follows
that order.  importDay is the date captured when the field table was defined;
loadDay is the date at this call (used by init when solution_date is None,
which cannot happen on this path since the SolutionDate default is a date). -/
def fromMeta (importDay loadDay : PyDate) (root : String) (rec : MetaRec) :
    Except LoadErr SolutionGroup := do
  let author ← getMetaField rec MetaFields.Author
  let book ← getMetaField rec MetaFields.Book
  let category ← getMetaField rec MetaFields.Category
  let isbn ← getMetaField rec MetaFields.ISBN
  let name ← getMetaField rec MetaFields.Name
  let references_file ← getMetaField rec MetaFields.ReferencesFile
  let sectionPref ← getMetaField rec MetaFields.SectionPref
  let solution_author ← getMetaField rec MetaFields.SolutionAuthor
  let solution_date ← getMetaField rec (MetaFields.SolutionDate importDay)
  let subcategory ← getMetaField rec MetaFields.Subcategory
  let tags ← getMetaField rec MetaFields.Tags
  Except.ok (SolutionGroup.init name root author book category solution_author
    isbn references_file sectionPref subcategory tags solution_date loadDay)

/-- The keyword overrides accepted by with_meta_overrides: for each
constructor keyword, either absent (keep the source's value) or present with
a value. -/
structure Overrides where
  name : Option Val
  root : Option String
  author : Option Val
  book : Option Val
  category : Option Val
  solution_author : Option Val
  isbn : Option Val
  references_file : Option Val
  sectionPref : Option Val
  subcategory : Option Val
  tags : Option Val
  solution_date : Option Val
deriving DecidableEq

/-- with_meta_overrides: build kwargs from the source's attributes, update
with the overrides, construct a new SolutionGroup, then set the new
instance's lazy slots from self.problems and self.exercises — property
accesses that force (and cache) the source's groupings first.  Returns the
new instance and the source as mutated by those property accesses.
today is date.today() at the time of the nested __init__ call. -/
def SolutionGroup.withMetaOverrides (sg : SolutionGroup) (fs : FileSys) (o : Overrides)
    (today : PyDate) : SolutionGroup × SolutionGroup :=
  let pr := sg.lazyGetFiles fs ProblemType.Problem
  let er := pr.2.lazyGetFiles fs ProblemType.Exercise
  let nw := SolutionGroup.init (o.name.getD sg.name) (o.root.getD sg.root)
    (o.author.getD sg.author) (o.book.getD sg.book) (o.category.getD sg.category)
    (o.solution_author.getD sg.solution_author) (o.isbn.getD sg.isbn)
    (o.references_file.getD sg.references_file) (o.sectionPref.getD sg.sectionPref)
    (o.subcategory.getD sg.subcategory) (o.tags.getD sg.tags)
    (o.solution_date.getD sg.solution_date) today
  ({ nw with problemsCache := some pr.1, exercisesCache := some er.1 }, er.2)

/-- Python str.replace(pat, "") restricted to a fixed fuel, structurally
recursive so that concrete instances evaluate in the kernel: scan left to
right, and whenever pat is a prefix of the rest, delete it and continue after
the deleted occurrence.  Callers always pass a nonempty pat. -/
def replaceAllAux : Nat → List Char → List Char → List Char
  | 0, _, l => l
  | Nat.succ fuel, pat, l =>
    match l with
    | [] => []
    | a :: rest =>
      if pat ≠ [] && pat.isPrefixOf (a :: rest) then
        replaceAllAux fuel pat ((a :: rest).drop pat.length)
      else
        a :: replaceAllAux fuel pat rest

/-- str.replace(pat, "").  Since every step consumes at least one char of l,
l.length fuel suffices. -/
def replaceAll (pat l : List Char) : List Char := replaceAllAux l.length pat l

/-- Path(name).with_suffix("").name: drop the final extension of the
filename, where pathlib recognizes a suffix only when the last dot is
neither the first char nor the last. -/
def pyStem (name : String) : String :=
  let l := name.data
  match l.reverse.findIdx? (fun c => c = '.') with
  | none => name
  | some j =>
    let i := l.length - 1 - j
    if 0 < i ∧ i < l.length - 1 then String.mk (l.take i) else name

/-- str(key) of a section key: repr of the int, or the raw string. -/
def skeyStr : SKey → String
  | SKey.int n => toString n
  | SKey.str s => s

/-- Zero-padded two-digit rendering used by str(date). -/
def pad2 (n : Nat) : String := if n < 10 then "0" ++ toString n else toString n

/-- str(value) as the format strings apply it to a metadata value.  Only the
vstr case is exercised by the claims; the others are included to keep the
function total over Val. -/
def pyStr : Val → String
  | Val.vstr s => s
  | Val.vnone => "None"
  | Val.vdate d => toString d.year ++ "-" ++ pad2 d.month ++ "-" ++ pad2 d.day
  | Val.vtuple xs => "(" ++ String.intercalate ", " xs ++ ")"

/-- SolutionGroup._file_to_latex: derive the solution number by deleting every
occurrence of "<tag>-" from the filename stem, convert the file through the
external converter conv, and emit the labeled subsection followed (after a
newline) by the converted content. -/
def fileToLatex (conv : SFile → String) (pt : ProblemType) (f : SFile) : String :=
  let soln_num := String.mk (replaceAll (pt.val ++ "-").data (pyStem f.name).data)
  "\\subsection\x7b " ++ pt.label ++ " " ++ soln_num ++ " \x7d" ++ "\n" ++ conv f

/-- SolutionGroup._section_to_latex: the section heading built from the
section-label attribute and str(section key), followed (after a newline) by
the double-newline-joined subsections of the section's files in order. -/
def sectionToLatex (conv : SFile → String) (pref : Val) (pt : ProblemType)
    (k : SKey) (files : List SFile) : String :=
  "\\section\x7b " ++ pyStr pref ++ " " ++ skeyStr k ++ " \x7d" ++ "\n" ++
    String.intercalate "\n\n" (files.map (fileToLatex conv pt))

/-- Boolean comparison on section keys as Python sorted() uses them when the
keys are mutually comparable.  int/int compares numerically, str/str
lexicographically by code point.  The two mixed cases are never reached:
sortGrouping raises (models TypeError) before sorting a mixed-key grouping,
so their values here are arbitrary placeholders chosen to keep the relation
total. -/
def skeyLe : SKey → SKey → Bool
  | SKey.int n, SKey.int m => decide (n ≤ m)
  | SKey.str a, SKey.str b => decide (a ≤ b)
  | SKey.int _, SKey.str _ => true
  | SKey.str _, SKey.int _ => false

def isIntKey : SKey → Bool
  | SKey.int _ => true
  | SKey.str _ => false

def isStrKey : SKey → Bool
  | SKey.int _ => false
  | SKey.str _ => true

/-- All grouping keys of one comparable kind (all ints or all strings):
exactly the groupings Python's sorted() can order without raising TypeError. -/
def keysHomogeneous (g : Grouping) : Bool :=
  g.all (fun p => isIntKey p.1) || g.all (fun p => isStrKey p.1)

/-- sorted(files_by_section.items(), key=lambda x: x[0]): a stable ascending
sort of the grouping by key, raising TypeError (typeErr) when the keys mix
ints and strings.  Python's Timsort and insertion sort agree on every
comparable input since both are stable. -/
def sortGrouping (g : Grouping) : Except LoadErr Grouping :=
  if keysHomogeneous g then
    Except.ok (List.insertionSort (fun p q : SKey × List SFile => skeyLe p.1 q.1 = true) g)
  else Except.error LoadErr.typeErr

/-- The body_tex expression of SolutionGroup.to_latex: the section blocks of
the grouping, taken in sorted key order, joined by blank lines. -/
def bodyTex (conv : SFile → String) (pref : Val) (pt : ProblemType) (g : Grouping) :
    Except LoadErr String :=
  match sortGrouping g with
  | Except.error e => Except.error e
  | Except.ok gs =>
    Except.ok (String.intercalate "\n\n" (gs.map (fun p => sectionToLatex conv pref pt p.1 p.2)))

/-- The bib_file argument expression of the to_latex render call:
(self.root / self.references_file).as_posix() if self.references_file is not
None else None.  Joining a Path with a non-string raises TypeError. -/
def bibFileArg (sg : SolutionGroup) : Except LoadErr (Option String) :=
  match sg.references_file with
  | Val.vnone => Except.ok none
  | Val.vstr s => Except.ok (some (sg.root ++ "/" ++ s))
  | _ => Except.error LoadErr.typeErr

/-- The parameter names of latex.render_solutions_tex(title, soln_author,
abstract, body, bib_file, outfile). -/
def renderSolutionsTexParams : List String :=
  ["title", "soln_author", "abstract", "body", "bib_file", "outfile"]

/-- The keyword names SolutionGroup.to_latex passes in its
latex.render_solutions_tex(...) call. -/
def toLatexRenderKwargs : List String :=
  ["title", "soln_author", "soln_date", "abstract", "body", "bib_file", "outfile"]

/-- Python keyword binding: a call raises TypeError unless every passed
keyword matches a declared parameter. -/
def kwargsAccepted (params kwargs : List String) : Bool :=
  kwargs.all (fun k => params.contains k)

/-- Stated from the specification (claim C1 wording): a subsection is a
heading "\subsection{ <ProblemType label> <number> }", where the number is
the filename stem with the problem-type tag plus its joining delimiter
stripped, followed by the converted file content. -/
def specSubsection (conv : SFile → String) (pt : ProblemType) (f : SFile) : String :=
  "\\subsection\x7b " ++ pt.label ++ " " ++
    String.mk (replaceAll (pt.val ++ "-").data (pyStem f.name).data) ++ " \x7d" ++ "\n" ++
    conv f

/-- Stated from the specification (claim C1 wording): a section block is a
heading "\section{ <SectionPrefix> <section key> }" followed by the
double-newline-separated concatenation of the section's subsections in
traversal order. -/
def specSectionBlock (conv : SFile → String) (pref : Val) (pt : ProblemType)
    (k : SKey) (files : List SFile) : String :=
  "\\section\x7b " ++ pyStr pref ++ " " ++ skeyStr k ++ " \x7d" ++ "\n" ++
    String.intercalate "\n\n" (files.map (specSubsection conv pt))

/-- Demo directory tree used to instantiate the theorems on concrete input:
two numeric section folders with two problem files and one exercise file
each, plus a stray non-matching note. -/
def demoFS : FileSys :=
  ⟨"demo",
   [⟨["1"], "prob-1.md"⟩, ⟨["1"], "prob-2.md"⟩, ⟨["1"], "ex-1.md"⟩,
    ⟨["2"], "prob-1.md"⟩, ⟨["2"], "prob-2.md"⟩, ⟨["2"], "ex-1.md"⟩,
    ⟨[], "notes.txt"⟩]⟩

/-- A fixed conversion stub standing in for the external markdown converter
in concrete instantiations. -/
def demoConv (f : SFile) : String := "converted " ++ f.name

/-- A SolutionGroup as from_meta would build it for the demo collection with
no references file configured. -/
def demoSG : SolutionGroup :=
  SolutionGroup.init (Val.vstr "SampleName") "demo" (Val.vstr "Problem Author")
    (Val.vstr "Sample Book Title") (Val.vstr "Math") (Val.vstr "Solution Author")
    Val.vnone Val.vnone (Val.vstr "Chapter") Val.vnone Val.vnone
    (Val.vdate ⟨4, 6, 2019⟩) ⟨4, 6, 2019⟩

/-- with_meta_overrides(solution_date=None): the override set that passes
None explicitly for the solution date. -/
def overrideDateNone : Overrides :=
  ⟨none, none, none, none, none, none, none, none, none, none, none, some Val.vnone⟩

/-- A metadata record with every required field present and the optional Tags
key absent. -/
def recNoTags : MetaRec :=
  [("Name", Val.vstr "SampleName"), ("Author", Val.vstr "Problem Author"),
   ("Book", Val.vstr "Sample Book Title"), ("Category", Val.vstr "Math"),
   ("SolutionAuthor", Val.vstr "Solution Author")]

/-- A metadata record with every required field present, Tags present, and
the SolutionDate key absent. -/
def recNoDate : MetaRec :=
  [("Name", Val.vstr "SampleName"), ("Author", Val.vstr "Problem Author"),
   ("Book", Val.vstr "Sample Book Title"), ("Category", Val.vstr "Math"),
   ("SolutionAuthor", Val.vstr "Solution Author"), ("Tags", Val.vstr "a,b")]

/-- A metadata record in which the required Name key is absent and every
other required field is present. -/
def recNoName : MetaRec :=
  [("Author", Val.vstr "Problem Author"), ("Book", Val.vstr "Sample Book Title"),
   ("Category", Val.vstr "Math"), ("SolutionAuthor", Val.vstr "Solution Author")]

/-- The keys of the required metadata fields. -/
def requiredKeys : List String :=
  ["Author", "Book", "Category", "Name", "SolutionAuthor"]

/-- The value a required field resolves to: the record entry, None when the
key is absent (every required field's declared default is None). -/
def resolveK (rec : MetaRec) (k : String) : Val :=
  (lookupRec rec k).getD Val.vnone

theorem ebind_ok {α β : Type} (a : α) (f : α → Except LoadErr β) :
    (Except.ok a >>= f) = f a := rfl

theorem ebind_err {α β : Type} (e : LoadErr) (f : α → Except LoadErr β) :
    ((Except.error e : Except LoadErr α) >>= f) = Except.error e := rfl

/-- C6: for every collection instance and problem type, the grouping is
computed at most once: a fresh instance's first access computes the grouping
from the directory tree, and any subsequent access on the resulting instance
returns the stored grouping unchanged, even against a different tree. -/
theorem grouping_memoized (sg : SolutionGroup) (fs fs2 : FileSys) (pt : ProblemType) :
    SolutionGroup.lazyGetFiles (sg.lazyGetFiles fs pt).2 fs2 pt =
      ((sg.lazyGetFiles fs pt).1, (sg.lazyGetFiles fs pt).2) ∧
    ∀ (n : Val) (r : String) (a b c sa i rf sp sub tg sd : Val) (td : PyDate),
      ((SolutionGroup.init n r a b c sa i rf sp sub tg sd td).lazyGetFiles fs pt).1 =
        computeGrouping fs pt := by
  constructor
  · cases pt with
    | Problem =>
      cases hc : sg.problemsCache <;>
        simp [SolutionGroup.lazyGetFiles, hc]
    | Exercise =>
      cases hc : sg.exercisesCache <;>
        simp [SolutionGroup.lazyGetFiles, hc]
  · intro n r a b c sa i rf sp sub tg sd td
    cases pt <;> simp [SolutionGroup.init, SolutionGroup.lazyGetFiles]

/-- C7 counterexample: overriding the solution date with the explicit value
None does not give the derived copy that override value; the nested
constructor replaces it with the construction-time date. -/
theorem overrides_date_cex :
    overrideDateNone.solution_date = some Val.vnone ∧
    ((demoSG.withMetaOverrides demoFS overrideDateNone ⟨1, 2, 2021⟩).1).solution_date =
      Val.vdate ⟨1, 2, 2021⟩ ∧
    Val.vdate ⟨1, 2, 2021⟩ ≠ Val.vnone :=
  ⟨rfl, rfl, by decide⟩

/-- C7 amended: a derived copy takes each overridden field's value — except
that a solution date overridden to None becomes the construction-time date —
keeps every other metadata field equal to the source's, stores the source's
two groupings in its cache slots, and serves any later grouping access from
those slots (no rescan, whatever the filesystem now holds). -/
theorem overrides_behavior (sg : SolutionGroup) (fs fs2 : FileSys) (o : Overrides)
    (today : PyDate) :
    ((sg.withMetaOverrides fs o today).1).name = o.name.getD sg.name ∧
    ((sg.withMetaOverrides fs o today).1).root = o.root.getD sg.root ∧
    ((sg.withMetaOverrides fs o today).1).author = o.author.getD sg.author ∧
    ((sg.withMetaOverrides fs o today).1).book = o.book.getD sg.book ∧
    ((sg.withMetaOverrides fs o today).1).category = o.category.getD sg.category ∧
    ((sg.withMetaOverrides fs o today).1).solution_author =
      o.solution_author.getD sg.solution_author ∧
    ((sg.withMetaOverrides fs o today).1).isbn = o.isbn.getD sg.isbn ∧
    ((sg.withMetaOverrides fs o today).1).references_file =
      o.references_file.getD sg.references_file ∧
    ((sg.withMetaOverrides fs o today).1).sectionPref = o.sectionPref.getD sg.sectionPref ∧
    ((sg.withMetaOverrides fs o today).1).subcategory = o.subcategory.getD sg.subcategory ∧
    ((sg.withMetaOverrides fs o today).1).tags = o.tags.getD sg.tags ∧
    ((sg.withMetaOverrides fs o today).1).solution_date =
      (if o.solution_date.getD sg.solution_date = Val.vnone then Val.vdate today
       else o.solution_date.getD sg.solution_date) ∧
    ((sg.withMetaOverrides fs o today).1).problemsCache =
      some (sg.lazyGetFiles fs ProblemType.Problem).1 ∧
    ((sg.withMetaOverrides fs o today).1).exercisesCache =
      some ((sg.lazyGetFiles fs ProblemType.Problem).2.lazyGetFiles fs ProblemType.Exercise).1 ∧
    ((sg.withMetaOverrides fs o today).1).lazyGetFiles fs2 ProblemType.Problem =
      ((sg.lazyGetFiles fs ProblemType.Problem).1, (sg.withMetaOverrides fs o today).1) ∧
    ((sg.withMetaOverrides fs o today).1).lazyGetFiles fs2 ProblemType.Exercise =
      (((sg.lazyGetFiles fs ProblemType.Problem).2.lazyGetFiles fs ProblemType.Exercise).1,
        (sg.withMetaOverrides fs o today).1) := by
  refine ⟨rfl, rfl, rfl, rfl, rfl, rfl, rfl, rfl, rfl, rfl, rfl, rfl, rfl, rfl, ?_, ?_⟩ <;>
    simp [SolutionGroup.withMetaOverrides, SolutionGroup.lazyGetFiles]

/-- C2: evaluation at the failing input.  A record with every required field
present but the optional Tags key absent does not load with Tags at its
declared default; the Tags coercion is applied to the None default and the
loader raises AttributeError (None has no split method). -/
theorem tags_absent_attribute_error :
    fromMeta ⟨1, 2, 2020⟩ ⟨1, 2, 2020⟩ "demo" recNoTags = Except.error LoadErr.attrErr ∧
    (MetaFields.Tags.required = false ∧ MetaFields.Tags.default = Val.vnone) ∧
    lookupRec recNoTags "Tags" = none :=
  ⟨rfl, ⟨rfl, rfl⟩, rfl⟩

/-- C8: evaluation at the failing input.  to_latex computes the bib_file
argument as specified (None for the demo collection with no references
file), but its render call passes a soln_date keyword that
render_solutions_tex does not declare, so the call raises TypeError before
any rendering happens. -/
theorem render_call_kwarg_mismatch :
    kwargsAccepted renderSolutionsTexParams toLatexRenderKwargs = false ∧
    bibFileArg demoSG = Except.ok none :=
  ⟨rfl, rfl⟩

theorem gmf_req_missing (rec : MetaRec) (f : MetaField) (hreq : f.required = true)
    (h : (lookupRec rec f.key).getD f.default = Val.vnone) :
    getMetaField rec f = Except.error (LoadErr.validation f.key) := by
  simp [getMetaField, h, hreq]

theorem gmf_nocoerce_ok (rec : MetaRec) (f : MetaField) (hc : f.coercion = none)
    (h : (lookupRec rec f.key).getD f.default = Val.vnone → f.required = false) :
    getMetaField rec f = Except.ok ((lookupRec rec f.key).getD f.default) := by
  by_cases hv : (lookupRec rec f.key).getD f.default = Val.vnone
  · simp [getMetaField, hv, h hv, hc]
  · simp [getMetaField, hv, hc]

/-- C3: for every record in which exactly one required field resolves to
None after defaults, loading fails with the validation error naming that
field's key, and no collection value is produced. -/
theorem missing_required_validation (importDay loadDay : PyDate) (root : String)
    (rec : MetaRec) (k : String)
    (hk : k ∈ requiredKeys)
    (hmiss : resolveK rec k = Val.vnone)
    (honly : ∀ k2, k2 ∈ requiredKeys → k2 ≠ k → resolveK rec k2 ≠ Val.vnone) :
    fromMeta importDay loadDay root rec = Except.error (LoadErr.validation k) := by
  have hisbn := gmf_nocoerce_ok rec MetaFields.ISBN rfl (fun _ => rfl)
  have href := gmf_nocoerce_ok rec MetaFields.ReferencesFile rfl (fun _ => rfl)
  have hsp := gmf_nocoerce_ok rec MetaFields.SectionPref rfl (fun _ => rfl)
  simp only [requiredKeys, List.mem_cons, List.not_mem_nil, or_false] at hk
  rcases hk with rfl | rfl | rfl | rfl | rfl
  · have hA := gmf_req_missing rec MetaFields.Author rfl hmiss
    simp only [fromMeta, hA, ebind_err]
    rfl
  · have hA := gmf_nocoerce_ok rec MetaFields.Author rfl
      (fun hv => absurd hv (honly "Author" (by decide) (by decide)))
    have hB := gmf_req_missing rec MetaFields.Book rfl hmiss
    simp only [fromMeta, hA, hB, ebind_ok, ebind_err]
    rfl
  · have hA := gmf_nocoerce_ok rec MetaFields.Author rfl
      (fun hv => absurd hv (honly "Author" (by decide) (by decide)))
    have hB := gmf_nocoerce_ok rec MetaFields.Book rfl
      (fun hv => absurd hv (honly "Book" (by decide) (by decide)))
    have hC := gmf_req_missing rec MetaFields.Category rfl hmiss
    simp only [fromMeta, hA, hB, hC, ebind_ok, ebind_err]
    rfl
  · have hA := gmf_nocoerce_ok rec MetaFields.Author rfl
      (fun hv => absurd hv (honly "Author" (by decide) (by decide)))
    have hB := gmf_nocoerce_ok rec MetaFields.Book rfl
      (fun hv => absurd hv (honly "Book" (by decide) (by decide)))
    have hC := gmf_nocoerce_ok rec MetaFields.Category rfl
      (fun hv => absurd hv (honly "Category" (by decide) (by decide)))
    have hN := gmf_req_missing rec MetaFields.Name rfl hmiss
    simp only [fromMeta, hA, hB, hC, hisbn, hN, ebind_ok, ebind_err]
    rfl
  · have hA := gmf_nocoerce_ok rec MetaFields.Author rfl
      (fun hv => absurd hv (honly "Author" (by decide) (by decide)))
    have hB := gmf_nocoerce_ok rec MetaFields.Book rfl
      (fun hv => absurd hv (honly "Book" (by decide) (by decide)))
    have hC := gmf_nocoerce_ok rec MetaFields.Category rfl
      (fun hv => absurd hv (honly "Category" (by decide) (by decide)))
    have hN := gmf_nocoerce_ok rec MetaFields.Name rfl
      (fun hv => absurd hv (honly "Name" (by decide) (by decide)))
    have hSA := gmf_req_missing rec MetaFields.SolutionAuthor rfl hmiss
    simp only [fromMeta, hA, hB, hC, hisbn, hN, href, hsp, hSA, ebind_ok, ebind_err]
    rfl

/-- C3 witness: the demo record without a Name key fails with the validation
error naming Name. -/
theorem missing_required_validation_witness :
    fromMeta ⟨1, 1, 2020⟩ ⟨1, 1, 2020⟩ "demo" recNoName =
      Except.error (LoadErr.validation "Name") :=
  missing_required_validation ⟨1, 1, 2020⟩ ⟨1, 1, 2020⟩ "demo" recNoName "Name"
    (by decide) rfl (by decide)

/-- C9 counterexample: for a record without a SolutionDate key, the loaded
solution date is the date captured at module import (when the field table
was built), not the current date at load time. -/
theorem solution_date_import_cex :
    lookupRec recNoDate "SolutionDate" = none ∧
    (fromMeta ⟨4, 6, 2019⟩ ⟨4, 7, 2019⟩ "demo" recNoDate).map (fun sg => sg.solution_date) =
      Except.ok (Val.vdate ⟨4, 6, 2019⟩) ∧
    (⟨4, 6, 2019⟩ : PyDate) ≠ ⟨4, 7, 2019⟩ :=
  ⟨rfl, rfl, by decide⟩

theorem bind_ok_inv {α β : Type} (e : Except LoadErr α) (f : α → Except LoadErr β) (b : β)
    (h : (e >>= f) = Except.ok b) : ∃ a, e = Except.ok a ∧ f a = Except.ok b := by
  cases e with
  | ok a => exact ⟨a, rfl, h⟩
  | error e2 => exact Except.noConfusion h

theorem parse_err_only (s : String) (e : LoadErr) (h : parseMMDDYYYY s = Except.error e) :
    e = LoadErr.parseErr := by
  unfold parseMMDDYYYY at h
  split at h
  · split at h
    · dsimp only at h
      split at h
      · exact absurd h (by simp)
      · injection h with h2
        exact h2.symm
    · injection h with h2
      exact h2.symm
  · injection h with h2
    exact h2.symm

/-- C9 amended: when the SolutionDate key is absent, the loaded solution date
is the date captured at module import time (when the field table was
defined), not the load-time date; a value already of date kind is kept
unchanged; text is coerced by parsing the fixed MM-DD-YYYY format; and
unparsable date text fails with the strptime parse error, which is distinct
from every validation error. -/
theorem solution_date_behavior (importDay loadDay : PyDate) (root : String) (rec : MetaRec) :
    (lookupRec rec "SolutionDate" = none →
      ∀ sg, fromMeta importDay loadDay root rec = Except.ok sg →
        sg.solution_date = Val.vdate importDay) ∧
    (∀ d, dateCoercion (Val.vdate d) = Except.ok (Val.vdate d)) ∧
    (∀ s d, parseMMDDYYYY s = Except.ok d →
      dateCoercion (Val.vstr s) = Except.ok (Val.vdate d)) ∧
    (∀ s e, dateCoercion (Val.vstr s) = Except.error e →
      e = LoadErr.parseErr ∧ ∀ k2, e ≠ LoadErr.validation k2) := by
  refine ⟨?_, fun d => rfl, ?_, ?_⟩
  · intro hnone sg h
    have hsd : getMetaField rec (MetaFields.SolutionDate importDay) =
        Except.ok (Val.vdate importDay) := by
      simp [getMetaField, MetaFields.SolutionDate, hnone, dateCoercion]
    unfold fromMeta at h
    obtain ⟨va, hA, h⟩ := bind_ok_inv _ _ _ h
    obtain ⟨vb, hB, h⟩ := bind_ok_inv _ _ _ h
    obtain ⟨vc, hC, h⟩ := bind_ok_inv _ _ _ h
    obtain ⟨vi, hI, h⟩ := bind_ok_inv _ _ _ h
    obtain ⟨vn, hN, h⟩ := bind_ok_inv _ _ _ h
    obtain ⟨vr, hR, h⟩ := bind_ok_inv _ _ _ h
    obtain ⟨vs, hS, h⟩ := bind_ok_inv _ _ _ h
    obtain ⟨vsa, hSA, h⟩ := bind_ok_inv _ _ _ h
    obtain ⟨vsd, hSD, h⟩ := bind_ok_inv _ _ _ h
    obtain ⟨vsub, hSub, h⟩ := bind_ok_inv _ _ _ h
    obtain ⟨vt, hT, h⟩ := bind_ok_inv _ _ _ h
    rw [hsd] at hSD
    injection hSD with hSD2
    injection h with h2
    rw [← h2, ← hSD2]
    simp [SolutionGroup.init]
  · intro s d h
    simp [dateCoercion, Except.map, h]
  · intro s e h
    have hp : parseMMDDYYYY s = Except.error e := by
      cases hp : parseMMDDYYYY s with
      | ok d =>
        simp [dateCoercion, Except.map, hp] at h
      | error e2 =>
        simp [dateCoercion, Except.map, hp] at h
        rw [h]
    have := parse_err_only s e hp
    exact ⟨this, fun k2 => by simp [this]⟩

/-- C9 amended witness: loading the demo record that lacks a SolutionDate key
on a later day yields the import-day date. -/
theorem solution_date_behavior_witness :
    ∃ sg, fromMeta ⟨4, 6, 2019⟩ ⟨4, 7, 2019⟩ "demo" recNoDate = Except.ok sg ∧
      sg.solution_date = Val.vdate ⟨4, 6, 2019⟩ := by
  refine ⟨_, rfl, ?_⟩
  exact (solution_date_behavior ⟨4, 6, 2019⟩ ⟨4, 7, 2019⟩ "demo" recNoDate).1 rfl _ rfl

/-- Invariant of the grouping loop: every entry has a nonempty file list, and
every listed file's parent-directory key is the entry's key. -/
def goodGroup (fs : FileSys) (g : Grouping) : Prop :=
  ∀ p ∈ g, p.2 ≠ [] ∧ ∀ f ∈ p.2, sectionKey (parentName fs f) = p.1

theorem addToGroup_good (fs : FileSys) (g : Grouping) (k : SKey) (f : SFile)
    (hg : goodGroup fs g) (hk : sectionKey (parentName fs f) = k) :
    goodGroup fs (addToGroup g k f) := by
  induction g with
  | nil =>
    intro p hp
    simp [addToGroup] at hp
    subst hp
    refine ⟨by simp, ?_⟩
    intro f2 hf2
    simp at hf2
    subst hf2
    exact hk
  | cons q rest ih =>
    obtain ⟨k2, fl⟩ := q
    intro p hp
    by_cases he : k2 = k
    · simp only [addToGroup, if_pos he] at hp
      rcases List.mem_cons.mp hp with h1 | h2
      · subst h1
        have hq := hg (k2, fl) (List.mem_cons_self _ _)
        refine ⟨by simp, ?_⟩
        intro f2 hf2
        rcases List.mem_append.mp hf2 with ha | hb
        · exact hq.2 f2 ha
        · simp at hb
          subst hb
          rw [hk]
          exact he.symm
      · exact hg p (List.mem_cons_of_mem _ h2)
    · simp only [addToGroup, if_neg he] at hp
      rcases List.mem_cons.mp hp with h1 | h2
      · subst h1
        exact hg (k2, fl) (List.mem_cons_self _ _)
      · exact ih (fun q hq => hg q (List.mem_cons_of_mem _ hq)) p h2

theorem foldl_good (fs : FileSys) (l : List SFile) :
    ∀ g : Grouping, goodGroup fs g →
      goodGroup fs (l.foldl (fun g2 f => addToGroup g2 (sectionKey (parentName fs f)) f) g) := by
  induction l with
  | nil => exact fun g hg => hg
  | cons a rest ih =>
    intro g hg
    exact ih _ (addToGroup_good fs g _ a hg rfl)

/-- A file is listed under a key of a grouping. -/
def inGroup (g : Grouping) (k : SKey) (f : SFile) : Prop :=
  ∃ fl, (k, fl) ∈ g ∧ f ∈ fl

theorem addToGroup_mem_self (g : Grouping) (k : SKey) (f : SFile) :
    inGroup (addToGroup g k f) k f := by
  induction g with
  | nil => exact ⟨[f], by simp [addToGroup]⟩
  | cons q rest ih =>
    obtain ⟨k2, fl⟩ := q
    by_cases he : k2 = k
    · subst he
      exact ⟨fl ++ [f], by simp [addToGroup], by simp⟩
    · obtain ⟨fl2, hm, hf⟩ := ih
      exact ⟨fl2, by simp only [addToGroup, if_neg he]; exact List.mem_cons_of_mem _ hm, hf⟩

theorem addToGroup_mem_mono (g : Grouping) (k : SKey) (f : SFile) (k2 : SKey) (f2 : SFile)
    (h : inGroup g k f) : inGroup (addToGroup g k2 f2) k f := by
  induction g with
  | nil =>
    obtain ⟨fl, hm, _⟩ := h
    simp at hm
  | cons q rest ih =>
    obtain ⟨kq, flq⟩ := q
    obtain ⟨fl, hm, hf⟩ := h
    rcases List.mem_cons.mp hm with h1 | h2
    · injection h1 with e1 e2
      subst e1
      subst e2
      by_cases he : k = k2
      · exact ⟨fl ++ [f2], by simp [addToGroup, he], List.mem_append_left _ hf⟩
      · exact ⟨fl, by simp only [addToGroup, if_neg he]; exact List.mem_cons_self _ _, hf⟩
    · by_cases he : kq = k2
      · exact ⟨fl, by simp only [addToGroup, if_pos he]; exact List.mem_cons_of_mem _ h2, hf⟩
      · obtain ⟨fl3, hm3, hf3⟩ := ih ⟨fl, h2, hf⟩
        exact ⟨fl3, by simp only [addToGroup, if_neg he]; exact List.mem_cons_of_mem _ hm3, hf3⟩

theorem foldl_mem_mono (fs : FileSys) (l : List SFile) (k : SKey) (f : SFile) :
    ∀ g : Grouping, inGroup g k f →
      inGroup (l.foldl (fun g2 f2 => addToGroup g2 (sectionKey (parentName fs f2)) f2) g) k f := by
  induction l with
  | nil => exact fun g h => h
  | cons a rest ih =>
    intro g h
    exact ih _ (addToGroup_mem_mono g k f _ a h)

theorem foldl_mem (fs : FileSys) (l : List SFile) (f : SFile) (hf : f ∈ l) :
    ∀ g : Grouping,
      inGroup (l.foldl (fun g2 f2 => addToGroup g2 (sectionKey (parentName fs f2)) f2) g)
        (sectionKey (parentName fs f)) f := by
  induction l with
  | nil => simp at hf
  | cons a rest ih =>
    intro g
    rcases List.mem_cons.mp hf with rfl | h2
    · exact foldl_mem_mono fs rest _ f _ (addToGroup_mem_self g _ f)
    · exact ih h2 _

theorem addToGroup_mem_inv (g : Grouping) (k2 : SKey) (f2 : SFile) (k : SKey) (f : SFile)
    (h : inGroup (addToGroup g k2 f2) k f) : inGroup g k f ∨ f = f2 := by
  induction g with
  | nil =>
    obtain ⟨fl, hm, hf⟩ := h
    simp [addToGroup] at hm
    obtain ⟨rfl, rfl⟩ := hm
    simp at hf
    exact Or.inr hf
  | cons q rest ih =>
    obtain ⟨kq, flq⟩ := q
    obtain ⟨fl, hm, hf⟩ := h
    by_cases he : kq = k2
    · simp only [addToGroup, if_pos he] at hm
      rcases List.mem_cons.mp hm with h1 | h2
      · injection h1 with e1 e2
        subst e1
        subst e2
        rcases List.mem_append.mp hf with ha | hb
        · exact Or.inl ⟨flq, List.mem_cons_self _ _, ha⟩
        · simp at hb
          exact Or.inr hb
      · exact Or.inl ⟨fl, List.mem_cons_of_mem _ h2, hf⟩
    · simp only [addToGroup, if_neg he] at hm
      rcases List.mem_cons.mp hm with h1 | h2
      · injection h1 with e1 e2
        subst e1
        subst e2
        exact Or.inl ⟨fl, List.mem_cons_self _ _, hf⟩
      · rcases ih ⟨fl, h2, hf⟩ with h3 | h4
        · obtain ⟨fl3, hm3, hf3⟩ := h3
          exact Or.inl ⟨fl3, List.mem_cons_of_mem _ hm3, hf3⟩
        · exact Or.inr h4

theorem foldl_mem_src (fs : FileSys) (l : List SFile) :
    ∀ (g : Grouping) (k : SKey) (f : SFile),
      inGroup (l.foldl (fun g2 f2 => addToGroup g2 (sectionKey (parentName fs f2)) f2) g) k f →
      inGroup g k f ∨ f ∈ l := by
  induction l with
  | nil => exact fun g k f h => Or.inl h
  | cons a rest ih =>
    intro g k f h
    rcases ih _ k f h with hg | hr
    · rcases addToGroup_mem_inv g _ a k f hg with h1 | rfl
      · exact Or.inl h1
      · exact Or.inr (List.mem_cons_self _ _)
    · exact Or.inr (List.mem_cons_of_mem _ hr)

/-- C10: in every computed grouping, each present key maps to a nonempty file
list, and each file listed under an integer key has a digits-only parent
directory denoting that integer, while each file under a string key has a
parent directory literally equal to that non-numeric string. -/
theorem grouping_invariant (fs : FileSys) (pt : ProblemType) (k : SKey) (fls : List SFile)
    (h : (k, fls) ∈ computeGrouping fs pt) :
    fls ≠ [] ∧ ∀ f ∈ fls,
      (match k with
       | SKey.int n => isDigitsStr (parentName fs f) = true ∧ digitsToNat (parentName fs f) = n
       | SKey.str s => parentName fs f = s ∧ isDigitsStr (parentName fs f) = false) := by
  have hgood := foldl_good fs (matchedFiles fs pt) [] (by intro p hp; simp at hp)
  have hp := hgood (k, fls) h
  refine ⟨hp.1, ?_⟩
  intro f hf
  have hsk := hp.2 f hf
  by_cases hd : isDigitsStr (parentName fs f) = true
  · rw [sectionKey, if_pos hd] at hsk
    cases k with
    | int n =>
      have := SKey.int.inj hsk
      exact ⟨hd, this⟩
    | str s => exact SKey.noConfusion hsk
  · rw [sectionKey, if_neg (by simpa using hd)] at hsk
    cases k with
    | int n => exact SKey.noConfusion hsk
    | str s => exact ⟨SKey.str.inj hsk, by simpa using hd⟩

/-- C10 witness. -/
theorem grouping_invariant_witness :
    ([⟨["1"], "prob-1.md"⟩, ⟨["1"], "prob-2.md"⟩] : List SFile) ≠ [] ∧
    ∀ f ∈ ([⟨["1"], "prob-1.md"⟩, ⟨["1"], "prob-2.md"⟩] : List SFile),
      (match (SKey.int 1 : SKey) with
       | SKey.int n => isDigitsStr (parentName demoFS f) = true ∧
           digitsToNat (parentName demoFS f) = n
       | SKey.str s => parentName demoFS f = s ∧ isDigitsStr (parentName demoFS f) = false) :=
  grouping_invariant demoFS ProblemType.Problem (SKey.int 1)
    [⟨["1"], "prob-1.md"⟩, ⟨["1"], "prob-2.md"⟩] (by decide)

theorem skeyLe_total (a b : SKey) : skeyLe a b = true ∨ skeyLe b a = true := by
  cases a <;> cases b <;> simp [skeyLe]
  · omega
  · exact le_total _ _

theorem skeyLe_trans (a b c : SKey) (h1 : skeyLe a b = true) (h2 : skeyLe b c = true) :
    skeyLe a c = true := by
  cases a <;> cases b <;> cases c <;> simp [skeyLe] at * <;> first
    | omega
    | exact le_trans h1 h2

instance : IsTotal (SKey × List SFile) (fun p q => skeyLe p.1 q.1 = true) :=
  ⟨fun p q => skeyLe_total p.1 q.1⟩

instance : IsTrans (SKey × List SFile) (fun p q => skeyLe p.1 q.1 = true) :=
  ⟨fun p q r => skeyLe_trans p.1 q.1 r.1⟩

/-- The numeric value of an integer section key (0 for string keys, which the
all-integer hypotheses rule out). -/
def keyNum : SKey → Nat
  | SKey.int n => n
  | SKey.str _ => 0

/-- C4: each matched file is grouped under the key derived from its immediate
parent directory name — the corresponding integer exactly when that name is
all digits, the literal string otherwise — and sorting an all-integer-keyed
grouping succeeds and yields ascending numeric order. -/
theorem section_keys_numeric_sort (fs : FileSys) (pt : ProblemType) :
    (∀ f, f ∈ matchedFiles fs pt →
      inGroup (computeGrouping fs pt) (sectionKey (parentName fs f)) f) ∧
    (∀ s : String,
      (isDigitsStr s = true → sectionKey s = SKey.int (digitsToNat s)) ∧
      (isDigitsStr s = false → sectionKey s = SKey.str s)) ∧
    (∀ g : Grouping, (g.all fun p => isIntKey p.1) = true →
      ∃ g2, sortGrouping g = Except.ok g2 ∧ g2.Perm g ∧
        g2.Pairwise (fun p q => keyNum p.1 ≤ keyNum q.1)) := by
  refine ⟨?_, ?_, ?_⟩
  · intro f hf
    exact foldl_mem fs (matchedFiles fs pt) f hf []
  · intro s
    constructor
    · intro hd
      simp [sectionKey, hd]
    · intro hd
      simp [sectionKey, hd]
  · intro g hall
    have hhom : keysHomogeneous g = true := by
      simp only [keysHomogeneous, Bool.or_eq_true]
      exact Or.inl hall
    refine ⟨List.insertionSort (fun p q : SKey × List SFile => skeyLe p.1 q.1 = true) g,
      by simp [sortGrouping, hhom], List.perm_insertionSort _ _, ?_⟩
    have hsorted := List.sorted_insertionSort
      (fun p q : SKey × List SFile => skeyLe p.1 q.1 = true) g
    have hmem : ∀ p ∈ List.insertionSort
        (fun p q : SKey × List SFile => skeyLe p.1 q.1 = true) g, isIntKey p.1 = true := by
      intro p hp
      exact (List.all_eq_true.mp hall) p ((List.perm_insertionSort _ _).mem_iff.mp hp)
    refine List.Pairwise.imp_of_mem ?_ hsorted
    intro p q hp hq hle
    have hip := hmem p hp
    have hiq := hmem q hq
    cases hkp : p.1 with
    | str s => rw [hkp] at hip; simp [isIntKey] at hip
    | int n =>
      cases hkq : q.1 with
      | str s => rw [hkq] at hiq; simp [isIntKey] at hiq
      | int m =>
        rw [hkp, hkq] at hle
        simp [skeyLe] at hle
        simp [keyNum, hkp, hkq, hle]

/-- C4 witness: the demo tree groups each problem file under its numeric
parent key, all-digit names convert, and a grouping keyed 10 and 2 sorts to
2 before 10 (numeric, not lexicographic, order). -/
theorem section_keys_numeric_sort_witness :
    inGroup (computeGrouping demoFS ProblemType.Problem)
      (sectionKey (parentName demoFS ⟨["2"], "prob-1.md"⟩)) ⟨["2"], "prob-1.md"⟩ ∧
    sectionKey "10" = SKey.int 10 ∧
    (∃ g2, sortGrouping [(SKey.int 10, [⟨["10"], "prob-1.md"⟩]),
        (SKey.int 2, [⟨["2"], "prob-1.md"⟩])] = Except.ok g2 ∧
      g2.Perm [(SKey.int 10, [⟨["10"], "prob-1.md"⟩]), (SKey.int 2, [⟨["2"], "prob-1.md"⟩])] ∧
      g2.Pairwise (fun p q => keyNum p.1 ≤ keyNum q.1)) := by
  refine ⟨(section_keys_numeric_sort demoFS ProblemType.Problem).1 ⟨["2"], "prob-1.md"⟩
    (by decide), ?_, ?_⟩
  · exact ((section_keys_numeric_sort demoFS ProblemType.Problem).2.1 "10").1 (by decide)
  · exact (section_keys_numeric_sort demoFS ProblemType.Problem).2.2
      [(SKey.int 10, [⟨["10"], "prob-1.md"⟩]), (SKey.int 2, [⟨["2"], "prob-1.md"⟩])] (by decide)

/-- C1: for every collection tree whose section keys are mutually comparable
(the only case in which the sort succeeds) and chosen problem type, the
assembled document body is the double-newline-separated concatenation of
section blocks as described by the specification — the grouping's entries
taken in ascending key order (a sorted permutation of the grouping), each
rendered as a section heading followed by the double-newline-separated
labeled subsections of its files in traversal order. -/
theorem body_assembly (conv : SFile → String) (fs : FileSys) (pt : ProblemType) (pref : Val)
    (hk : keysHomogeneous (computeGrouping fs pt) = true) :
    ∃ secs : Grouping,
      secs.Perm (computeGrouping fs pt) ∧
      List.Sorted (fun p q : SKey × List SFile => skeyLe p.1 q.1 = true) secs ∧
      bodyTex conv pref pt (computeGrouping fs pt) =
        Except.ok (String.intercalate "\n\n"
          (secs.map (fun p => specSectionBlock conv pref pt p.1 p.2))) := by
  refine ⟨List.insertionSort (fun p q : SKey × List SFile => skeyLe p.1 q.1 = true)
      (computeGrouping fs pt),
    List.perm_insertionSort _ _, List.sorted_insertionSort _ _, ?_⟩
  simp only [bodyTex, sortGrouping, hk, if_pos]
  rfl

/-- C1 witness: the demo collection's problem body instantiates the assembly
description. -/
theorem body_assembly_witness :
    ∃ secs : Grouping,
      secs.Perm (computeGrouping demoFS ProblemType.Problem) ∧
      List.Sorted (fun p q : SKey × List SFile => skeyLe p.1 q.1 = true) secs ∧
      bodyTex demoConv (Val.vstr "Chapter") ProblemType.Problem
          (computeGrouping demoFS ProblemType.Problem) =
        Except.ok (String.intercalate "\n\n"
          (secs.map (fun p =>
            specSectionBlock demoConv (Val.vstr "Chapter") ProblemType.Problem p.1 p.2))) :=
  body_assembly demoConv demoFS ProblemType.Problem (Val.vstr "Chapter") (by decide)

theorem containsSeg_iff (pat l : List Char) : containsSeg pat l = true ↔ pat <:+: l := by
  induction l with
  | nil =>
    cases pat <;> simp [containsSeg]
  | cons a rest ih =>
    simp only [containsSeg, Bool.or_eq_true, ih, List.isPrefixOf_iff_prefix]
    exact (List.infix_cons_iff).symm

theorem sufCheck_iff (pat l : List Char) : List.isSuffixOf pat l = true ↔ pat <:+ l := by
  rw [show (List.isSuffixOf pat l) = pat.reverse.isPrefixOf l.reverse from rfl,
    List.isPrefixOf_iff_prefix]
  exact List.reverse_prefix

theorem stem3_append3 (u : List Char) (c1 c2 c3 : Char) : stem3 (u ++ [c1, c2, c3]) = u := by
  have h3 : (u ++ [c1, c2, c3]).length - 3 = u.length := by
    simp [List.length_append]
  simp [stem3, h3, List.take_left]

/-- matchesPat is exactly the fnmatch meaning of the glob pattern
"*<tag>*.md": some decomposition name = a ++ tag ++ b ++ ".md". -/
theorem matchesPat_iff (tag name : String) :
    matchesPat tag name = true ↔
      ∃ a b, name.data = a ++ tag.data ++ b ++ ['.', 'm', 'd'] := by
  simp only [matchesPat, Bool.and_eq_true, sufCheck_iff, containsSeg_iff]
  constructor
  · rintro ⟨hsuf, hinf⟩
    obtain ⟨u, hu⟩ := hsuf
    obtain ⟨a, b, hab⟩ := hinf
    have hstem : stem3 name.data = u := by
      rw [← hu]
      exact stem3_append3 u '.' 'm' 'd'
    rw [hstem] at hab
    refine ⟨a, b, ?_⟩
    rw [← hu, ← hab]
  · rintro ⟨a, b, hab⟩
    constructor
    · refine ⟨a ++ tag.data ++ b, ?_⟩
      rw [hab]
    · have hstem : stem3 name.data = a ++ tag.data ++ b := by
        rw [hab]
        have := stem3_append3 (a ++ tag.data ++ b) '.' 'm' 'd'
        simpa [List.append_assoc] using this
      rw [hstem]
      exact ⟨a, b, rfl⟩

/-- The tag of either problem type cannot straddle the final ".md": if the
tag occurs anywhere in a filename that ends in ".md", it occurs in the stem
region before that extension. -/
theorem tag_infix_stem3 (tag : List Char)
    (htag : tag = ['e', 'x'] ∨ tag = ['p', 'r', 'o', 'b'])
    (name : List Char) (hinf : tag <:+: name) (hsuf : ['.', 'm', 'd'] <:+ name) :
    tag <:+: stem3 name := by
  obtain ⟨u, hu⟩ := hsuf
  obtain ⟨s, t, hst⟩ := hinf
  have hstem : stem3 name = u := by
    rw [← hu]
    exact stem3_append3 u '.' 'm' 'd'
  rw [hstem]
  rw [← hu] at hst
  rcases t with _ | ⟨a, _ | ⟨b, _ | ⟨c, t2⟩⟩⟩
  · have h2 := congrArg List.reverse hst
    rcases htag with rfl | rfl <;> simp [List.reverse_append] at h2
  · have h2 := congrArg List.reverse hst
    rcases htag with rfl | rfl <;> simp [List.reverse_append] at h2
  · have h2 := congrArg List.reverse hst
    rcases htag with rfl | rfl <;> simp [List.reverse_append] at h2
  · have hsplit := List.take_append_drop ((a :: b :: c :: t2).length - 3) (a :: b :: c :: t2)
    have hlen3 : ((a :: b :: c :: t2).drop ((a :: b :: c :: t2).length - 3)).length = 3 := by
      simp [List.length_drop]
      omega
    rw [← hsplit] at hst
    have h3 : (s ++ tag ++ (a :: b :: c :: t2).take ((a :: b :: c :: t2).length - 3)) ++
        (a :: b :: c :: t2).drop ((a :: b :: c :: t2).length - 3) = u ++ ['.', 'm', 'd'] := by
      rw [← hst]
      simp [List.append_assoc]
    have h4 := List.append_inj' h3 (by rw [hlen3]; rfl)
    refine ⟨s, (a :: b :: c :: t2).take ((a :: b :: c :: t2).length - 3), ?_⟩
    rw [← h4.1]

/-- C5: a file belongs to a type's grouping exactly when it lies anywhere
under the root tree, its filename contains the type's short tag as a
substring, and its filename ends in ".md" — containment, not a delimited
token match. -/
theorem matching_substring_iff (fs : FileSys) (pt : ProblemType) (f : SFile) :
    (∃ k, inGroup (computeGrouping fs pt) k f) ↔
      (f ∈ fs.files ∧ (pt.val.data <:+: f.name.data) ∧ (['.', 'm', 'd'] <:+ f.name.data)) := by
  constructor
  · rintro ⟨k, hg⟩
    rcases foldl_mem_src fs (matchedFiles fs pt) [] k f hg with h1 | h2
    · obtain ⟨fl, hm, _⟩ := h1
      simp at hm
    · obtain ⟨hmem, hmatch⟩ := List.mem_filter.mp h2
      obtain ⟨a, b, hab⟩ := (matchesPat_iff pt.val f.name).mp hmatch
      refine ⟨hmem, ⟨a, b ++ ['.', 'm', 'd'], ?_⟩, ⟨a ++ pt.val.data ++ b, ?_⟩⟩
      · rw [hab]
        simp [List.append_assoc]
      · rw [hab]
  · rintro ⟨hmem, hinf, hsuf⟩
    have htag : pt.val.data = ['e', 'x'] ∨ pt.val.data = ['p', 'r', 'o', 'b'] := by
      cases pt
      · exact Or.inl rfl
      · exact Or.inr rfl
    have hstem := tag_infix_stem3 pt.val.data htag f.name.data hinf hsuf
    have hmatch : matchesPat pt.val f.name = true := by
      simp only [matchesPat, Bool.and_eq_true, sufCheck_iff, containsSeg_iff]
      exact ⟨hsuf, hstem⟩
    exact ⟨sectionKey (parentName fs f),
      foldl_mem fs (matchedFiles fs pt) f (List.mem_filter.mpr ⟨hmem, hmatch⟩) []⟩

/-- C5 witness: a file named with the tag as a plain substring (here as the
delimited "prob-" convention) in numeric section 1 of the demo tree is
matched and grouped. -/
theorem matching_substring_iff_witness :
    ∃ k, inGroup (computeGrouping demoFS ProblemType.Problem) k ⟨["1"], "prob-1.md"⟩ :=
  (matching_substring_iff demoFS ProblemType.Problem ⟨["1"], "prob-1.md"⟩).mpr
    ⟨by decide, ⟨[], ['-', '1', '.', 'm', 'd'], rfl⟩,
      ⟨['p', 'r', 'o', 'b', '-', '1'], rfl⟩⟩

end Solman
